import Mathlib

/-!
Shallow embedding of the annotation-export core of `src/app.py`:
the class-id lookup (`get_class_id`), the shoelace polygon area
(`polygon_area`), the polygon bounding box (`polygon_bbox`), and the
COCO export routine (`save_annotation`) with its inline rectangle
normalization.  Numbers are modelled as rationals; fallible Python
steps (tuple unpacking of a rectangle entry, `min`/`max` of an empty
sequence, `list.index` of a missing element) are modelled with
`Except String`.  The file write performed at the end of
`save_annotation` is modelled by `export_file`, which produces the
serialized record only when assembly of the whole record succeeded,
mirroring the program order of the source (the output file is opened
only after both loops finished).
-/

/-- The fixed class list `class_options` of `app.py` (line 179). -/
def class_options : List String := [ "Unlabeled", "Car", "Truck", "Building", "Tank", "Tree" ]

/-- Embedding of `get_class_id` (line 46): `class_options.index(name) + 1`.
Python `list.index` raises `ValueError` when the name is absent; this is
modelled by the `Except` error branch. -/
def get_class_id (name : String) : Except String Nat :=
  if name ∈ class_options then .ok (class_options.indexOf name + 1)
  else .error "ValueError: name is not in list"

/-- Embedding of `polygon_area` (lines 57-64): the indexed loop
`for i in range(n): area += x1*y2 - y1*x2` over `points[i]` and
`points[(i+1) % n]`, then `abs(area) / 2`. -/
def polygon_area (points : List (ℚ × ℚ)) : ℚ :=
  let n := points.length
  |(List.range n).foldl (fun area i =>
      area + ((points.getD i (0, 0)).1 * (points.getD ((i + 1) % n) (0, 0)).2
            - (points.getD i (0, 0)).2 * (points.getD ((i + 1) % n) (0, 0)).1)) 0| / 2

/-- Embedding of `polygon_bbox` (lines 67-72): `xs`/`ys` projections,
`min`/`max` over each, result `[x_min, y_min, x_max - x_min, y_max - y_min]`.
Python `min([])` raises `ValueError`, modelled by the error branch. -/
def polygon_bbox (points : List (ℚ × ℚ)) : Except String (List ℚ) :=
  let xs := points.map Prod.fst
  let ys := points.map Prod.snd
  match xs, ys with
  | x :: xt, y :: yt =>
      .ok [xt.foldl min x, yt.foldl min y,
           xt.foldl max x - xt.foldl min x, yt.foldl max y - yt.foldl min y]
  | _, _ => .error "ValueError: min() arg is an empty sequence"

/-- One image entry of the COCO record (line 76-78 of `app.py`). -/
structure CocoImage where
  id : Nat
  file_name : String
  width : Nat
  height : Nat
deriving Repr, DecidableEq

/-- One annotation entry of the COCO record (lines 97-102 / 108-115). -/
structure CocoAnn where
  id : Nat
  image_id : Nat
  category_id : Nat
  bbox : List ℚ
  segmentation : List (List ℚ)
  area : ℚ
  iscrowd : Nat
deriving Repr, DecidableEq

/-- The single category entry of the COCO record (lines 80-84). -/
structure CocoCategory where
  id : Nat
  name : String
  supercategory : String
deriving Repr, DecidableEq

/-- The assembled `coco_format` dictionary (lines 75-85). -/
structure CocoRecord where
  images : List CocoImage
  annotations : List CocoAnn
  categories : List CocoCategory
deriving Repr, DecidableEq

/-- The annotation set read by the exporter: the `data` dictionary with
keys `rects` and `polys`.  A rectangle entry is kept as a raw list of
numbers (its 4-field arity is only checked by the unpacking inside the
export loop, line 89); a polygon is a list of vertices. -/
structure AnnotationSet where
  rects : List (List ℚ)
  polys : List (List (ℚ × ℚ))
deriving Repr, DecidableEq

/-- The inline rectangle normalization of `save_annotation`
(lines 90-96): `if w < 0: x += w; w = abs(w)` and
`if h < 0: y += h; h = abs(h)`.  Returns `(x, y, w, h)` after the two
conditionals. -/
def normalize_rect (x y w h : ℚ) : ℚ × ℚ × ℚ × ℚ :=
  ((if w < 0 then x + w else x), (if h < 0 then y + h else y),
   (if w < 0 then |w| else w), (if h < 0 then |h| else h))

/-- The annotation dictionary appended for one rectangle (lines 97-102):
bbox and area use the values left by the normalization. -/
def rect_entry (cls ann_id : Nat) (x y w h : ℚ) : CocoAnn :=
  { id := ann_id, image_id := 1, category_id := cls,
    bbox := [(normalize_rect x y w h).1, (normalize_rect x y w h).2.1,
             (normalize_rect x y w h).2.2.1, (normalize_rect x y w h).2.2.2],
    segmentation := [],
    area := (normalize_rect x y w h).2.2.1 * (normalize_rect x y w h).2.2.2,
    iscrowd := 0 }

/-- The rectangle loop of `save_annotation` (lines 87-103), carrying the
running `ann_id`.  Each entry must unpack as `x, y, w, h = r`
(a `ValueError` otherwise).  Besides the produced annotations and the
next id, the entries are returned exactly as the loop left them, so that
the absence of mutation of the input list is part of the model. -/
def process_rects (cls : Nat) : List (List ℚ) → Nat →
    Except String (List CocoAnn × Nat × List (List ℚ))
  | [], ann_id => .ok ([], ann_id, [])
  | r :: rest, ann_id =>
    match r with
    | [x, y, w, h] =>
      match process_rects cls rest (ann_id + 1) with
      | .ok (anns, ann_id', rest') =>
        .ok (rect_entry cls ann_id x y w h :: anns, ann_id', r :: rest')
      | .error e => .error e
    | _ => .error "ValueError: cannot unpack rectangle entry"

/-- The annotation dictionary appended for one polygon (lines 108-115):
flattened segmentation, shoelace area, bounding box. -/
def poly_entry (cls ann_id : Nat) (p : List (ℚ × ℚ)) (bbox : List ℚ) : CocoAnn :=
  { id := ann_id, image_id := 1, category_id := cls,
    bbox := bbox,
    segmentation := [(p.map (fun pt => [pt.1, pt.2])).flatten],
    area := polygon_area p,
    iscrowd := 0 }

/-- The polygon loop of `save_annotation` (lines 104-116):
`segmentation` is the flattened vertex list, `area` comes from
`polygon_area`, `bbox` from `polygon_bbox` (which fails on a
zero-vertex polygon).  As with the rectangles, the traversed entries
are also returned unchanged. -/
def process_polys (cls : Nat) : List (List (ℚ × ℚ)) → Nat →
    Except String (List CocoAnn × Nat × List (List (ℚ × ℚ)))
  | [], ann_id => .ok ([], ann_id, [])
  | p :: rest, ann_id =>
    match polygon_bbox p with
    | .error e => .error e
    | .ok bbox =>
      match process_polys cls rest (ann_id + 1) with
      | .ok (anns, ann_id', rest') =>
        .ok (poly_entry cls ann_id p bbox :: anns, ann_id', p :: rest')
      | .error e => .error e

/-- Embedding of `save_annotation` (lines 74-120): build the record
skeleton (whose `categories` entry calls `get_class_id`), run the
rectangle loop starting at `ann_id = 1`, continue with the polygon loop,
and return the assembled record together with the annotation set as the
loops left it. -/
def save_annotation (file_name : String) (selected_class : String)
    (data : AnnotationSet) : Except String (CocoRecord × AnnotationSet) :=
  match get_class_id selected_class with
  | .error e => .error e
  | .ok cls =>
    match process_rects cls data.rects 1 with
    | .error e => .error e
    | .ok (rect_anns, ann_id, rects') =>
      match process_polys cls data.polys ann_id with
      | .error e => .error e
      | .ok (poly_anns, _, polys') =>
        .ok ({ images := [{ id := 1, file_name := file_name, width := 800, height := 533 }],
               annotations := rect_anns ++ poly_anns,
               categories := [{ id := cls, name := selected_class, supercategory := "none" }] },
             { rects := rects', polys := polys' })

/-- Total serialization of an assembled record, modelling `json.dump` on
the (always JSON-serializable) `coco_format` value. -/
def serialize_record (r : CocoRecord) : String :=
  (repr r).pretty

/-- The content written at the output path by one export call: the code
opens the file only after both loops assembled the full record (line 118
follows lines 87-116), so content exists exactly when assembly
succeeded, and is the complete serialization of the whole record. -/
def export_file (file_name : String) (selected_class : String)
    (data : AnnotationSet) : Option String :=
  match save_annotation file_name selected_class data with
  | .ok (rec, _) => some (serialize_record rec)
  | .error _ => none

/-- Cross product term of one edge of the shoelace sum. -/
def cross (p q : ℚ × ℚ) : ℚ := p.1 * q.2 - p.2 * q.1

/-- Shoelace sum along a chain from `x` through `cs` and finally to `y`. -/
def chainSum : (ℚ × ℚ) → List (ℚ × ℚ) → (ℚ × ℚ) → ℚ
  | x, [], y => cross x y
  | x, c :: cs, y => cross x c + chainSum c cs y

/-- Signed shoelace sum around the closed cycle of a vertex list. -/
def edgeSum (l : List (ℚ × ℚ)) : ℚ := (List.zipWith cross l (l.rotate 1)).sum

lemma cross_anti (p q : ℚ × ℚ) : cross p q = -cross q p := by
  simp only [cross]; ring

lemma foldl_add_eq (f : ℕ → ℚ) (l : List ℕ) : ∀ a : ℚ,
    l.foldl (fun acc i => acc + f i) a = a + (l.map f).sum := by
  induction l with
  | nil => intro a; simp
  | cons c cs ih =>
    intro a
    simp only [List.foldl_cons, List.map_cons, List.sum_cons, ih, add_assoc]

lemma range_map_eq_zipWith (points : List (ℚ × ℚ)) :
    (List.range points.length).map (fun i =>
        (points.getD i (0, 0)).1 * (points.getD ((i + 1) % points.length) (0, 0)).2
      - (points.getD i (0, 0)).2 * (points.getD ((i + 1) % points.length) (0, 0)).1)
      = List.zipWith cross points (points.rotate 1) := by
  apply List.ext_getElem
  · simp [List.length_zipWith]
  · intro n h₁ h₂
    have hn : n < points.length := by simpa using h₁
    have hn' : (n + 1) % points.length < points.length := Nat.mod_lt _ (by omega)
    simp only [List.getElem_map, List.getElem_range, List.getElem_zipWith,
      List.getElem_rotate, cross]
    rw [List.getD_eq_getElem points (0, 0) hn, List.getD_eq_getElem points (0, 0) hn']

lemma polygon_area_eq_edgeSum (points : List (ℚ × ℚ)) :
    polygon_area points = |edgeSum points| / 2 := by
  simp only [polygon_area, edgeSum]
  rw [foldl_add_eq (fun i =>
        (points.getD i (0, 0)).1 * (points.getD ((i + 1) % points.length) (0, 0)).2
      - (points.getD i (0, 0)).2 * (points.getD ((i + 1) % points.length) (0, 0)).1)]
  rw [zero_add, range_map_eq_zipWith]

lemma edge_chain (t : List (ℚ × ℚ)) : ∀ x y : ℚ × ℚ,
    (List.zipWith cross (x :: t) (t ++ [y])).sum = chainSum x t y := by
  induction t with
  | nil => intro x y; simp [chainSum]
  | cons c cs ih =>
    intro x y
    simp only [List.cons_append, List.zipWith_cons_cons, List.sum_cons, ih, chainSum]

lemma rotate_one_cons (x : ℚ × ℚ) (t : List (ℚ × ℚ)) : (x :: t).rotate 1 = t ++ [x] := by
  simpa using List.rotate_cons_succ t x 0

lemma edgeSum_cons (x : ℚ × ℚ) (t : List (ℚ × ℚ)) : edgeSum (x :: t) = chainSum x t x := by
  rw [edgeSum, rotate_one_cons, edge_chain]

lemma chainSum_append (a y : ℚ × ℚ) (ts : List (ℚ × ℚ)) : ∀ x : ℚ × ℚ,
    chainSum x (ts ++ [a]) y = chainSum x ts a + cross a y := by
  induction ts with
  | nil => intro x; simp [chainSum]
  | cons c cs ih => intro x; simp [chainSum, ih, add_assoc]

lemma edgeSum_rotate_one (l : List (ℚ × ℚ)) : edgeSum (l.rotate 1) = edgeSum l := by
  match l with
  | [] => simp [edgeSum]
  | [a] => rw [rotate_one_cons]; rfl
  | a :: b :: ts =>
    rw [rotate_one_cons a (b :: ts)]
    have h : (b :: ts) ++ [a] = b :: (ts ++ [a]) := rfl
    rw [h, edgeSum_cons b (ts ++ [a]), chainSum_append a b ts b, edgeSum_cons a (b :: ts)]
    show chainSum b ts a + cross a b = cross a b + chainSum b ts a
    ring

lemma edgeSum_rotate (l : List (ℚ × ℚ)) (k : ℕ) : edgeSum (l.rotate k) = edgeSum l := by
  induction k with
  | zero => rw [List.rotate_zero]
  | succ n ih => rw [← List.rotate_rotate l n 1, edgeSum_rotate_one, ih]

lemma chainSum_reverse (xs : List (ℚ × ℚ)) : ∀ x y : ℚ × ℚ,
    chainSum y xs.reverse x = -chainSum x xs y := by
  induction xs with
  | nil => intro x y; simp only [List.reverse_nil, chainSum]; exact cross_anti y x
  | cons c cs ih =>
    intro x y
    rw [List.reverse_cons, chainSum_append c x cs.reverse y, ih c y]
    show -chainSum c cs y + cross c x = -(cross x c + chainSum c cs y)
    rw [cross_anti c x]; ring

lemma edgeSum_reverse (l : List (ℚ × ℚ)) : edgeSum l.reverse = -edgeSum l := by
  match l with
  | [] => simp [edgeSum]
  | a :: t =>
    match ht : t.reverse with
    | [] =>
      have h0 : t = [] := List.reverse_eq_nil_iff.mp ht
      subst h0
      show edgeSum [a] = -edgeSum [a]
      rw [edgeSum_cons]
      show cross a a = -cross a a
      simp only [cross]; ring
    | y :: ys =>
      have hrev : (a :: t).reverse = y :: (ys ++ [a]) := by
        rw [List.reverse_cons, ht]; rfl
      have hts : t = ys.reverse ++ [y] := by
        have h2 := congrArg List.reverse ht
        simpa [List.reverse_cons] using h2
      rw [hrev, edgeSum_cons y (ys ++ [a]), chainSum_append a y ys y,
          edgeSum_cons a t, hts, chainSum_append y a ys.reverse, chainSum_reverse ys y a]
      rw [cross_anti y a]
      ring

lemma polygon_area_rotate (l : List (ℚ × ℚ)) (k : ℕ) :
    polygon_area (l.rotate k) = polygon_area l := by
  rw [polygon_area_eq_edgeSum, polygon_area_eq_edgeSum, edgeSum_rotate]

lemma polygon_area_reverse (l : List (ℚ × ℚ)) :
    polygon_area l.reverse = polygon_area l := by
  rw [polygon_area_eq_edgeSum, polygon_area_eq_edgeSum, edgeSum_reverse, abs_neg]

/-- Written from the spec's words (section 4.1): the shoelace formula as the
sum over consecutive vertex pairs with wraparound of
`xi * y(i+1) - x(i+1) * yi`, absolute value, divided by 2. -/
def shoelace_spec (points : List (ℚ × ℚ)) : ℚ :=
  let n := points.length
  |((List.range n).map (fun i =>
      (points.getD i (0, 0)).1 * (points.getD ((i + 1) % n) (0, 0)).2
    - (points.getD ((i + 1) % n) (0, 0)).1 * (points.getD i (0, 0)).2)).sum| / 2

/-- Claim C5: `polygon_area` computes the shoelace formula (sum over
consecutive vertex pairs with wraparound of `xi * y(i+1) - x(i+1) * yi`,
absolute value, divided by 2), and on the rectangle
`[[0,0],[4,0],[4,3],[0,3]]` it returns `12`. -/
theorem polygon_area_is_shoelace :
    (∀ points : List (ℚ × ℚ), polygon_area points = shoelace_spec points) ∧
    polygon_area [(0, 0), (4, 0), (4, 3), (0, 3)] = 12 := by
  constructor
  · intro points
    simp only [polygon_area, shoelace_spec]
    rw [foldl_add_eq (fun i =>
          (points.getD i (0, 0)).1 * (points.getD ((i + 1) % points.length) (0, 0)).2
        - (points.getD i (0, 0)).2 * (points.getD ((i + 1) % points.length) (0, 0)).1)]
    rw [zero_add]
    congr 2
    refine congrArg List.sum (List.map_congr_left ?_)
    intro i _
    ring
  · norm_num [polygon_area, List.range_succ]

/-- Claim C6: for vertex lists of at least 3 points, `polygon_area` is
invariant under any cyclic rotation and under reversal of the vertex
list. -/
theorem polygon_area_rotate_reverse_invariant (points : List (ℚ × ℚ))
    (_h : 3 ≤ points.length) (k : ℕ) :
    polygon_area (points.rotate k) = polygon_area points ∧
    polygon_area points.reverse = polygon_area points :=
  ⟨polygon_area_rotate points k, polygon_area_reverse points⟩

/-- Witness for C6 at the triangle `[(0,0),(4,0),(0,3)]` and rotation 1. -/
theorem polygon_area_rotate_reverse_invariant_witness :
    3 ≤ ([(0, 0), (4, 0), (0, 3)] : List (ℚ × ℚ)).length ∧
    (polygon_area (([(0, 0), (4, 0), (0, 3)] : List (ℚ × ℚ)).rotate 1)
        = polygon_area [(0, 0), (4, 0), (0, 3)] ∧
      polygon_area ([(0, 0), (4, 0), (0, 3)] : List (ℚ × ℚ)).reverse
        = polygon_area [(0, 0), (4, 0), (0, 3)]) :=
  ⟨by decide, polygon_area_rotate_reverse_invariant _ (by decide) 1⟩

lemma polygon_area_short (points : List (ℚ × ℚ))
    (h : points.length < 3) : polygon_area points = 0 := by
  match points with
  | [] => simp [polygon_area]
  | [a] =>
    rw [polygon_area_eq_edgeSum, edgeSum_cons]
    have h1 : chainSum a [] a = 0 := by
      show cross a a = 0
      simp only [cross]; ring
    rw [h1]; simp
  | [a, b] =>
    rw [polygon_area_eq_edgeSum, edgeSum_cons]
    have h1 : chainSum a [b] a = 0 := by
      show cross a b + cross b a = 0
      simp only [cross]; ring
    rw [h1]; simp
  | a :: b :: c :: t => simp at h; omega

/-- Claim C10: on every vertex list of fewer than 3 points — empty, one
point, or two points — `polygon_area` is total and returns `0`. -/
theorem polygon_area_short_list_zero (points : List (ℚ × ℚ))
    (h : points.length < 3) : polygon_area points = 0 :=
  polygon_area_short points h

/-- Witness for C10 at the two-point list `[(1,2),(3,4)]`. -/
theorem polygon_area_short_list_zero_witness :
    ([(1, 2), (3, 4)] : List (ℚ × ℚ)).length < 3 ∧
    polygon_area [(1, 2), (3, 4)] = 0 :=
  ⟨by decide, polygon_area_short_list_zero _ (by decide)⟩
lemma foldl_min_mem (t : List ℚ) : ∀ x : ℚ, t.foldl min x ∈ x :: t := by
  induction t with
  | nil => intro x; simp
  | cons c cs ih =>
    intro x
    have h1 := ih (min x c)
    simp only [List.foldl_cons, List.mem_cons] at *
    rcases h1 with h1 | h1
    · rw [h1]; rcases min_choice x c with h2 | h2 <;> tauto
    · tauto

lemma foldl_min_le (t : List ℚ) : ∀ x : ℚ, ∀ v ∈ x :: t, t.foldl min x ≤ v := by
  induction t with
  | nil => intro x v hv; simp at hv; simp [hv]
  | cons c cs ih =>
    intro x v hv
    simp only [List.foldl_cons]
    simp only [List.mem_cons] at hv
    rcases hv with h | h | h
    · exact le_trans (ih (min x c) _ (List.mem_cons_self _ _)) (h ▸ min_le_left x c)
    · exact le_trans (ih (min x c) _ (List.mem_cons_self _ _)) (h ▸ min_le_right x c)
    · exact ih (min x c) v (List.mem_cons_of_mem _ h)

lemma foldl_max_mem (t : List ℚ) : ∀ x : ℚ, t.foldl max x ∈ x :: t := by
  induction t with
  | nil => intro x; simp
  | cons c cs ih =>
    intro x
    have h1 := ih (max x c)
    simp only [List.foldl_cons, List.mem_cons] at *
    rcases h1 with h1 | h1
    · rw [h1]; rcases max_choice x c with h2 | h2 <;> tauto
    · tauto

lemma le_foldl_max (t : List ℚ) : ∀ x : ℚ, ∀ v ∈ x :: t, v ≤ t.foldl max x := by
  induction t with
  | nil => intro x v hv; simp at hv; simp [hv]
  | cons c cs ih =>
    intro x v hv
    simp only [List.foldl_cons]
    simp only [List.mem_cons] at hv
    rcases hv with h | h | h
    · exact le_trans (h ▸ le_max_left x c) (ih (max x c) _ (List.mem_cons_self _ _))
    · exact le_trans (h ▸ le_max_right x c) (ih (max x c) _ (List.mem_cons_self _ _))
    · exact ih (max x c) v (List.mem_cons_of_mem _ h)

/-- Claim C7: on every non-empty vertex list `polygon_bbox` succeeds and
returns `[x_min, y_min, x_max - x_min, y_max - y_min]` where the bounds
are attained minima/maxima over all vertices (so degenerate input yields
a zero-width or zero-height box, not an error); on `[(1,5),(4,1),(2,8)]`
it returns `[1, 1, 3, 7]`. -/
theorem polygon_bbox_spec :
    (∀ points : List (ℚ × ℚ), points ≠ [] →
      ∃ a b w h, polygon_bbox points = .ok [a, b, w, h] ∧
        (a ∈ points.map Prod.fst ∧ ∀ v ∈ points.map Prod.fst, a ≤ v) ∧
        (b ∈ points.map Prod.snd ∧ ∀ v ∈ points.map Prod.snd, b ≤ v) ∧
        (∃ xmax ∈ points.map Prod.fst, (∀ v ∈ points.map Prod.fst, v ≤ xmax) ∧
          w = xmax - a) ∧
        (∃ ymax ∈ points.map Prod.snd, (∀ v ∈ points.map Prod.snd, v ≤ ymax) ∧
          h = ymax - b)) ∧
    polygon_bbox [(1, 5), (4, 1), (2, 8)] = .ok [1, 1, 3, 7] := by
  constructor
  · intro points hne
    match points with
    | p :: ps =>
      refine ⟨(ps.map Prod.fst).foldl min p.1, (ps.map Prod.snd).foldl min p.2,
        (ps.map Prod.fst).foldl max p.1 - (ps.map Prod.fst).foldl min p.1,
        (ps.map Prod.snd).foldl max p.2 - (ps.map Prod.snd).foldl min p.2,
        rfl, ⟨foldl_min_mem _ p.1, foldl_min_le _ p.1⟩,
        ⟨foldl_min_mem _ p.2, foldl_min_le _ p.2⟩,
        ⟨(ps.map Prod.fst).foldl max p.1, foldl_max_mem _ p.1,
          le_foldl_max _ p.1, rfl⟩,
        ⟨(ps.map Prod.snd).foldl max p.2, foldl_max_mem _ p.2,
          le_foldl_max _ p.2, rfl⟩⟩
  · norm_num [polygon_bbox]

/-- Witness for C7: instantiated at the concrete triangle of the claim. -/
theorem polygon_bbox_spec_witness :
    ([((1 : ℚ), (5 : ℚ)), (4, 1), (2, 8)] : List (ℚ × ℚ)) ≠ [] ∧
    ∃ a b w h, polygon_bbox [((1 : ℚ), (5 : ℚ)), (4, 1), (2, 8)] = .ok [a, b, w, h] ∧
      (a ∈ ([((1 : ℚ), (5 : ℚ)), (4, 1), (2, 8)] : List (ℚ × ℚ)).map Prod.fst ∧
        ∀ v ∈ ([((1 : ℚ), (5 : ℚ)), (4, 1), (2, 8)] : List (ℚ × ℚ)).map Prod.fst, a ≤ v) ∧
      (b ∈ ([((1 : ℚ), (5 : ℚ)), (4, 1), (2, 8)] : List (ℚ × ℚ)).map Prod.snd ∧
        ∀ v ∈ ([((1 : ℚ), (5 : ℚ)), (4, 1), (2, 8)] : List (ℚ × ℚ)).map Prod.snd, b ≤ v) ∧
      (∃ xmax ∈ ([((1 : ℚ), (5 : ℚ)), (4, 1), (2, 8)] : List (ℚ × ℚ)).map Prod.fst,
        (∀ v ∈ ([((1 : ℚ), (5 : ℚ)), (4, 1), (2, 8)] : List (ℚ × ℚ)).map Prod.fst, v ≤ xmax) ∧
          w = xmax - a) ∧
      (∃ ymax ∈ ([((1 : ℚ), (5 : ℚ)), (4, 1), (2, 8)] : List (ℚ × ℚ)).map Prod.snd,
        (∀ v ∈ ([((1 : ℚ), (5 : ℚ)), (4, 1), (2, 8)] : List (ℚ × ℚ)).map Prod.snd, v ≤ ymax) ∧
          h = ymax - b) :=
  ⟨by simp, polygon_bbox_spec.1 _ (by simp)⟩
lemma get_class_id_ok (C : String) (hC : C ∈ class_options) :
    get_class_id C = .ok (class_options.indexOf C + 1) := by
  simp [get_class_id, hC]

lemma list_len4 (r : List ℚ) (h : r.length = 4) : ∃ a b c d, r = [a, b, c, d] := by
  rcases r with _ | ⟨a, _ | ⟨b, _ | ⟨c, _ | ⟨d, _ | ⟨e, t⟩⟩⟩⟩⟩ <;>
    simp only [List.length_cons, List.length_nil] at h
  all_goals try omega
  exact ⟨a, b, c, d, rfl⟩

lemma process_rects_ok (cls : Nat) (rs : List (List ℚ)) : ∀ i : Nat,
    (∀ r ∈ rs, r.length = 4) →
    ∃ anns, process_rects cls rs i = .ok (anns, i + rs.length, rs) ∧
      anns.map (fun a => a.id) = List.range' i rs.length ∧
      ∀ a ∈ anns, a.category_id = cls ∧ a.segmentation = [] := by
  induction rs with
  | nil =>
    intro i h
    exact ⟨[], by simp [process_rects], by simp, by simp⟩
  | cons r rest ih =>
    intro i h
    obtain ⟨x, y, w, z, rfl⟩ := list_len4 r (h r (List.mem_cons_self r rest))
    obtain ⟨anns, heq, hid, hprops⟩ := ih (i + 1) (fun q hq => h q (List.mem_cons_of_mem _ hq))
    refine ⟨rect_entry cls i x y w z :: anns, ?_, ?_, ?_⟩
    · simp only [process_rects, heq, Except.ok.injEq, Prod.mk.injEq, List.length_cons,
        true_and, and_true]
      omega
    · simp only [List.map_cons, hid, List.length_cons, List.range'_succ]
      rfl
    · intro a ha
      rcases List.mem_cons.mp ha with h1 | h1
      · subst h1; exact ⟨rfl, rfl⟩
      · exact hprops a h1

lemma polygon_bbox_ok (p : List (ℚ × ℚ)) (h : p ≠ []) : ∃ b, polygon_bbox p = .ok b := by
  match p with
  | q :: qs => exact ⟨_, rfl⟩

lemma process_polys_ok (cls : Nat) (ps : List (List (ℚ × ℚ))) : ∀ i : Nat,
    (∀ p ∈ ps, p ≠ []) →
    ∃ anns, process_polys cls ps i = .ok (anns, i + ps.length, ps) ∧
      anns.map (fun a => a.id) = List.range' i ps.length ∧
      ∀ a ∈ anns, a.category_id = cls ∧ a.segmentation.length = 1 := by
  induction ps with
  | nil =>
    intro i h
    exact ⟨[], by simp [process_polys], by simp, by simp⟩
  | cons p rest ih =>
    intro i h
    obtain ⟨b, hb⟩ := polygon_bbox_ok p (h p (List.mem_cons_self p rest))
    obtain ⟨anns, heq, hid, hprops⟩ := ih (i + 1) (fun q hq => h q (List.mem_cons_of_mem _ hq))
    refine ⟨poly_entry cls i p b :: anns, ?_, ?_, ?_⟩
    · simp only [process_polys, hb, heq, Except.ok.injEq, Prod.mk.injEq, List.length_cons,
        true_and, and_true]
      omega
    · simp only [List.map_cons, hid, List.length_cons, List.range'_succ]
      rfl
    · intro a ha
      rcases List.mem_cons.mp ha with h1 | h1
      · subst h1; exact ⟨rfl, rfl⟩
      · exact hprops a h1

lemma process_rects_keeps (cls : Nat) (rs : List (List ℚ)) : ∀ i anns j rs',
    process_rects cls rs i = .ok (anns, j, rs') → rs' = rs := by
  induction rs with
  | nil =>
    intro i anns j rs' h
    simp only [process_rects, Except.ok.injEq, Prod.mk.injEq] at h
    exact h.2.2.symm
  | cons r rest ih =>
    intro i anns j rs' h
    rcases r with _ | ⟨x, _ | ⟨y, _ | ⟨w, _ | ⟨z, _ | ⟨e, t⟩⟩⟩⟩⟩ <;>
      simp only [process_rects] at h
    · exact Except.noConfusion h
    · exact Except.noConfusion h
    · exact Except.noConfusion h
    · exact Except.noConfusion h
    · cases hrec : process_rects cls rest (i + 1) with
      | error e2 => rw [hrec] at h; simp at h
      | ok val =>
        obtain ⟨anns', j', rest'⟩ := val
        rw [hrec] at h
        simp only [Except.ok.injEq, Prod.mk.injEq] at h
        rw [← h.2.2, ih (i + 1) anns' j' rest' hrec]
    · exact Except.noConfusion h

lemma process_polys_keeps (cls : Nat) (ps : List (List (ℚ × ℚ))) : ∀ i anns j ps',
    process_polys cls ps i = .ok (anns, j, ps') → ps' = ps := by
  induction ps with
  | nil =>
    intro i anns j ps' h
    simp only [process_polys, Except.ok.injEq, Prod.mk.injEq] at h
    exact h.2.2.symm
  | cons p rest ih =>
    intro i anns j ps' h
    simp only [process_polys] at h
    cases hb : polygon_bbox p with
    | error e => rw [hb] at h; simp at h
    | ok b =>
      rw [hb] at h
      cases hrec : process_polys cls rest (i + 1) with
      | error e => rw [hrec] at h; simp at h
      | ok val =>
        obtain ⟨anns', j', rest'⟩ := val
        rw [hrec] at h
        simp only [Except.ok.injEq, Prod.mk.injEq] at h
        rw [← h.2.2, ih (i + 1) anns' j' rest' hrec]

/-- Claim C1: exporting rectangles `R` and polygons `P` with a class `C`
from the fixed class list yields a record whose annotations list has
length `len R + len P`, whose ids are the consecutive integers
`1 .. len R + len P` assigned to the rectangle annotations first (in
list order, recognizable by their empty segmentation) and then the
polygon annotations (in list order, with singleton segmentation), and
in which every annotation's `category_id` is the 1-based position of
`C` in the class list. -/
theorem save_annotation_record_structure (file C : String) (data : AnnotationSet)
    (hC : C ∈ class_options)
    (hR : ∀ r ∈ data.rects, r.length = 4)
    (hP : ∀ p ∈ data.polys, p ≠ []) :
    ∃ rec data', save_annotation file C data = .ok (rec, data') ∧
      rec.annotations.length = data.rects.length + data.polys.length ∧
      rec.annotations.map (fun a => a.id)
        = List.range' 1 (data.rects.length + data.polys.length) ∧
      (∀ a ∈ rec.annotations, a.category_id = class_options.indexOf C + 1) ∧
      (∀ a ∈ rec.annotations.take data.rects.length, a.segmentation = []) ∧
      (∀ a ∈ rec.annotations.drop data.rects.length, a.segmentation.length = 1) := by
  obtain ⟨ranns, hre, hrid, hrprops⟩ :=
    process_rects_ok (class_options.indexOf C + 1) data.rects 1 hR
  obtain ⟨panns, hpe, hpid, hpprops⟩ :=
    process_polys_ok (class_options.indexOf C + 1) data.polys (1 + data.rects.length) hP
  have hrlen : ranns.length = data.rects.length := by
    have h1 := congrArg List.length hrid
    simpa using h1
  refine ⟨{ images := [{ id := 1, file_name := file, width := 800, height := 533 }],
            annotations := ranns ++ panns,
            categories := [{ id := class_options.indexOf C + 1, name := C,
                             supercategory := "none" }] },
          ⟨data.rects, data.polys⟩, ?_, ?_, ?_, ?_, ?_, ?_⟩
  · simp only [ save_annotation, get_class_id_ok C hC, hre, hpe]
  · simp only [List.length_append, hrlen]
    have h1 := congrArg List.length hpid
    simpa using h1
  · simp only [List.map_append, hrid, hpid]
    have h2 := List.range'_append 1 data.rects.length data.polys.length 1
    simp only [one_mul] at h2
    rw [h2, Nat.add_comm data.polys.length data.rects.length]
  · intro a ha
    rcases List.mem_append.mp ha with h1 | h1
    · exact (hrprops a h1).1
    · exact (hpprops a h1).1
  · intro a ha
    rw [← hrlen, List.take_left] at ha
    exact (hrprops a ha).2
  · intro a ha
    rw [← hrlen, List.drop_left] at ha
    exact (hpprops a ha).2

/-- Witness for C1: one rectangle and one triangle exported as class Car. -/
theorem save_annotation_record_structure_witness :
    ("Car" ∈ class_options) ∧
    (∀ r ∈ ([[0, 0, 2, 3]] : List (List ℚ)), r.length = 4) ∧
    (∀ p ∈ ([[((0 : ℚ), (0 : ℚ)), (1, 0), (0, 1)]] : List (List (ℚ × ℚ))), p ≠ []) ∧
    (∃ rec data',
      save_annotation "img.png" "Car" ⟨[[0, 0, 2, 3]], [[(0, 0), (1, 0), (0, 1)]]⟩
          = .ok (rec, data') ∧
      rec.annotations.length = 2 ∧
      rec.annotations.map (fun a => a.id) = List.range' 1 2 ∧
      (∀ a ∈ rec.annotations, a.category_id = 2) ∧
      (∀ a ∈ rec.annotations.take 1, a.segmentation = []) ∧
      (∀ a ∈ rec.annotations.drop 1, a.segmentation.length = 1)) :=
  ⟨by decide, by decide, by decide,
   save_annotation_record_structure "img.png" "Car"
     ⟨[[0, 0, 2, 3]], [[(0, 0), (1, 0), (0, 1)]]⟩ (by decide) (by decide) (by decide)⟩

/-- Claim C8: exporting an empty annotation set succeeds and its record
has an empty annotations list. -/
theorem save_annotation_empty_set (file C : String) (hC : C ∈ class_options) :
    save_annotation file C ⟨[], []⟩ =
      .ok (⟨[⟨1, file, 800, 533⟩], [],
            [⟨class_options.indexOf C + 1, C, "none"⟩]⟩,
           ⟨[], []⟩) := by
  simp [ save_annotation, get_class_id_ok C hC, process_rects, process_polys]

/-- Witness for C8 at the class Car. -/
theorem save_annotation_empty_set_witness :
    ("Car" ∈ class_options) ∧
    save_annotation "img.png" "Car" ⟨[], []⟩ =
      .ok (⟨[⟨1, "img.png", 800, 533⟩], [], [⟨2, "Car", "none"⟩]⟩, ⟨[], []⟩) :=
  ⟨by decide, save_annotation_empty_set "img.png" "Car" (by decide)⟩

/-- Claim C9: a successful export leaves the annotation set exactly as it
was: the set returned alongside the record is the input set, raw negative
extents included — normalization only affects the produced record. -/
theorem save_annotation_nondestructive (file C : String) (data : AnnotationSet)
    (rec : CocoRecord) (data' : AnnotationSet)
    (h : save_annotation file C data = .ok (rec, data')) : data' = data := by
  unfold save_annotation at h
  cases hc : get_class_id C with
  | error e => rw [hc] at h; simp at h
  | ok cls =>
    rw [hc] at h
    dsimp only at h
    cases hr : process_rects cls data.rects 1 with
    | error e => rw [hr] at h; simp at h
    | ok v =>
      obtain ⟨ranns, j, rects'⟩ := v
      rw [hr] at h
      dsimp only at h
      cases hp : process_polys cls data.polys j with
      | error e => rw [hp] at h; simp at h
      | ok u =>
        obtain ⟨panns, j', polys'⟩ := u
        rw [hp] at h
        simp only [Except.ok.injEq, Prod.mk.injEq] at h
        rw [← h.2, process_rects_keeps cls data.rects 1 ranns j rects' hr,
            process_polys_keeps cls data.polys j panns j' polys' hp]

/-- Witness for C9: a successful export of a raw rectangle, applied to the
computed result, returns the input set unchanged. -/
theorem save_annotation_nondestructive_witness :
    save_annotation "w.png" "Tree" ⟨[[1, 2, 3, 4]], []⟩ =
      .ok (⟨[⟨1, "w.png", 800, 533⟩], [⟨1, 1, 6, [1, 2, 3, 4], [], 12, 0⟩],
            [⟨6, "Tree", "none"⟩]⟩,
           ⟨[[1, 2, 3, 4]], []⟩) ∧
    (⟨[[1, 2, 3, 4]], []⟩ : AnnotationSet) = ⟨[[1, 2, 3, 4]], []⟩ := by
  have hEq : save_annotation "w.png" "Tree" ⟨[[1, 2, 3, 4]], []⟩ =
      .ok (⟨[⟨1, "w.png", 800, 533⟩], [⟨1, 1, 6, [1, 2, 3, 4], [], 12, 0⟩],
            [⟨6, "Tree", "none"⟩]⟩,
           ⟨[[1, 2, 3, 4]], []⟩) := by
    have hC : "Tree" ∈ class_options := by decide
    have hIdx : class_options.indexOf "Tree" = 5 := by rfl
    norm_num [ save_annotation, get_class_id, hC, hIdx, process_rects, process_polys,
      rect_entry, normalize_rect]
  exact ⟨hEq, save_annotation_nondestructive _ _ _ _ _ hEq⟩

/-- The set of the four corner points of a rectangle given as one corner
plus signed extents. -/
def cornerSet (x y w h : ℚ) : Set (ℚ × ℚ) :=
  {(x, y), (x + w, y), (x, y + h), (x + w, y + h)}

/-- Claim C2: the export normalization yields non-negative extents with
the top-left corner as origin and preserves the set of the four corner
points; in particular the raw rectangle (500, 300, -200, -100) is
exported with bbox [300, 200, 200, 100] and area 20000. -/
theorem normalize_rect_shape_preserving :
    (∀ x y w h : ℚ,
      0 ≤ (normalize_rect x y w h).2.2.1 ∧
      0 ≤ (normalize_rect x y w h).2.2.2 ∧
      (normalize_rect x y w h).1 = min x (x + w) ∧
      (normalize_rect x y w h).2.1 = min y (y + h) ∧
      cornerSet (normalize_rect x y w h).1 (normalize_rect x y w h).2.1
          (normalize_rect x y w h).2.2.1 (normalize_rect x y w h).2.2.2
        = cornerSet x y w h) ∧
    (∃ rec data',
      save_annotation "img.png" "Car" ⟨[[500, 300, -200, -100]], []⟩ = .ok (rec, data') ∧
      rec.annotations.map (fun a => a.bbox) = [[300, 200, 200, 100]] ∧
      rec.annotations.map (fun a => a.area) = [20000]) := by
  constructor
  · intro x y w h
    by_cases hw : w < 0 <;> by_cases hh : h < 0
    · simp only [normalize_rect, if_pos hw, if_pos hh, abs_of_neg hw, abs_of_neg hh]
      refine ⟨by linarith, by linarith, (min_eq_right (by linarith : x + w ≤ x)).symm,
        (min_eq_right (by linarith : y + h ≤ y)).symm, ?_⟩
      unfold cornerSet
      have e1 : x + w + -w = x := by ring
      have e2 : y + h + -h = y := by ring
      rw [e1, e2]
      ext pt
      simp only [Set.mem_insert_iff, Set.mem_singleton_iff]
      tauto
    · simp only [normalize_rect, if_pos hw, if_neg hh, abs_of_neg hw]
      refine ⟨by linarith, by linarith, (min_eq_right (by linarith : x + w ≤ x)).symm,
        (min_eq_left (by linarith : y ≤ y + h)).symm, ?_⟩
      unfold cornerSet
      have e1 : x + w + -w = x := by ring
      rw [e1]
      ext pt
      simp only [Set.mem_insert_iff, Set.mem_singleton_iff]
      tauto
    · simp only [normalize_rect, if_neg hw, if_pos hh, abs_of_neg hh]
      refine ⟨by linarith, by linarith, (min_eq_left (by linarith : x ≤ x + w)).symm,
        (min_eq_right (by linarith : y + h ≤ y)).symm, ?_⟩
      unfold cornerSet
      have e2 : y + h + -h = y := by ring
      rw [e2]
      ext pt
      simp only [Set.mem_insert_iff, Set.mem_singleton_iff]
      tauto
    · simp only [normalize_rect, if_neg hw, if_neg hh]
      exact ⟨by linarith, by linarith, (min_eq_left (by linarith : x ≤ x + w)).symm,
        (min_eq_left (by linarith : y ≤ y + h)).symm, trivial⟩
  · refine ⟨⟨[⟨1, "img.png", 800, 533⟩],
            [⟨1, 1, 2, [300, 200, 200, 100], [], 20000, 0⟩],
            [⟨2, "Car", "none"⟩]⟩,
           ⟨[[500, 300, -200, -100]], []⟩, ?_, by rfl, by rfl⟩
    have hC : "Car" ∈ class_options := by decide
    have hIdx : class_options.indexOf "Car" = 1 := by rfl
    norm_num [ save_annotation, get_class_id, hC, hIdx, process_rects, process_polys,
      rect_entry, normalize_rect, abs_of_neg]

/-- Counterexample to claim C3: exporting a set whose only entry is the
two-vertex polygon [(0,0),(4,0)] does not fail with a malformed-shape
error; it succeeds and the produced record contains that polygon with
area 0. -/
theorem two_vertex_polygon_counterexample :
    save_annotation "img.png" "Car" ⟨[], [[(0, 0), (4, 0)]]⟩ =
      .ok (⟨[⟨1, "img.png", 800, 533⟩],
            [⟨1, 1, 2, [0, 0, 4, 0], [[0, 0, 4, 0]], 0, 0⟩],
            [⟨2, "Car", "none"⟩]⟩,
           ⟨[], [[(0, 0), (4, 0)]]⟩) := by
  have hC : "Car" ∈ class_options := by decide
  have hIdx : class_options.indexOf "Car" = 1 := by rfl
  norm_num [ save_annotation, get_class_id, hC, hIdx, process_rects, process_polys,
    poly_entry, polygon_bbox, polygon_area, List.range_succ]

/-- Claim C3 (amended): exporting an annotation set that contains a
two-vertex polygon entry does not fail: the exporter silently produces a
record containing that polygon with area 0. -/
theorem two_vertex_polygon_exported (file C : String) (p q : ℚ × ℚ)
    (hC : C ∈ class_options) :
    ∃ rec data', save_annotation file C ⟨[], [[p, q]]⟩ = .ok (rec, data') ∧
      rec.annotations.map (fun a => a.area) = [0] := by
  have harea : polygon_area [p, q] = 0 := polygon_area_short _ (by simp)
  have hbb : polygon_bbox [p, q] = .ok [min p.1 q.1, min p.2 q.2,
      max p.1 q.1 - min p.1 q.1, max p.2 q.2 - min p.2 q.2] := rfl
  refine ⟨⟨[⟨1, file, 800, 533⟩],
          [poly_entry (class_options.indexOf C + 1) 1 [p, q]
            [min p.1 q.1, min p.2 q.2,
             max p.1 q.1 - min p.1 q.1, max p.2 q.2 - min p.2 q.2]],
          [⟨class_options.indexOf C + 1, C, "none"⟩]⟩,
         ⟨[], [[p, q]]⟩, ?_, ?_⟩
  · simp [ save_annotation, get_class_id_ok C hC, process_rects, process_polys, hbb]
  · simp [poly_entry, harea]

/-- Witness for the amended C3 at the two-vertex polygon [(1,2),(3,4)]. -/
theorem two_vertex_polygon_exported_witness :
    ("Car" ∈ class_options) ∧
    ∃ rec data',
      save_annotation "f.png" "Car" ⟨[], [[((1 : ℚ), (2 : ℚ)), (3, 4)]]⟩ = .ok (rec, data') ∧
      rec.annotations.map (fun a => a.area) = [0] :=
  ⟨by decide, two_vertex_polygon_exported "f.png" "Car" (1, 2) (3, 4) (by decide)⟩

/-- Claim C4: export is all-or-nothing.  If any step of assembling the
record fails, nothing is written at the output path; and whenever
content is written, it is the complete serialization of the fully
assembled record, never a truncation. -/
theorem export_all_or_nothing (file C : String) (data : AnnotationSet) :
    ((∃ e, save_annotation file C data = .error e) → export_file file C data = none) ∧
    (∀ s, export_file file C data = some s →
      ∃ rec data', save_annotation file C data = .ok (rec, data') ∧
        s = serialize_record rec) := by
  constructor
  · rintro ⟨e, he⟩
    simp [export_file, he]
  · intro s hs
    unfold export_file at hs
    cases h : save_annotation file C data with
    | error e => rw [h] at hs; simp at hs
    | ok v =>
      obtain ⟨rec, data'⟩ := v
      rw [h] at hs
      simp only [Option.some.injEq] at hs
      exact ⟨rec, data', rfl, hs.symm⟩

/-- Witness for C4: a rectangle entry with only three fields makes the
export fail and nothing is written. -/
theorem export_all_or_nothing_witness :
    (∃ e, save_annotation "a.png" "Car" ⟨[[1, 2, 3]], []⟩ = .error e) ∧
    export_file "a.png" "Car" ⟨[[1, 2, 3]], []⟩ = none :=
  ⟨⟨"ValueError: cannot unpack rectangle entry", by rfl⟩,
   (export_all_or_nothing "a.png" "Car" ⟨[[1, 2, 3]], []⟩).1
     ⟨"ValueError: cannot unpack rectangle entry", by rfl⟩⟩
